import Mathlib

/-!
Verification of the filesystem-access layer of the pants build engine
(`src/rust/engine/fs`): the glob pattern parser (`PathGlob::parse`,
`PathGlob::parse_globs`), the `Stat`/`PathStat` data model, the POSIX VFS
backend (`PosixFS::stat_internal`, `scandir_sync`, `read_link`,
`path_stats`), and the shared-memory alternate backend (`vcfs`).

The Rust code is shallowly embedded: paths are lists of segments (a POSIX
path split at separators) together with an absolute-path flag where the
distinction matters; blocking-pool futures are erased (each dispatched
closure is modelled by its pure result); fallible operations return
`Except`.  Rust `format!` error strings are reproduced exactly, including
the `{:?}` Debug renderings they embed, so claims about error-message
contents can be settled faithfully.
-/

set_option maxHeartbeats 1000000

namespace PantsFs

/-! ## Rust `Debug` rendering

Models of the `{:?}` formatter for the types that appear inside the error
messages of the embedded code.  The character-escaping model is exact for
ASCII data (the only data the theorems below quantify over or evaluate
on): it reproduces `char::escape_debug` for control characters, quotes and
backslashes, and passes other characters through unchanged.
-/

def hexDigitChar (n : Nat) : Char :=
  if n < 10 then Char.ofNat (48 + n) else Char.ofNat (87 + n)

def hexStringAux : Nat → Nat → String
  | 0, _ => ""
  | _ + 1, 0 => ""
  | fuel + 1, n => hexStringAux fuel (n / 16) ++ String.singleton (hexDigitChar (n % 16))

def hexString (n : Nat) : String :=
  if n = 0 then "0" else hexStringAux 8 n

/-- One character of a Rust `str` Debug rendering (`escape_debug`, with
single quotes left unescaped as in `str`'s `Debug` impl). -/
def escapeDebugStrChar (c : Char) : String :=
  if c = '"' then "\\\""
  else if c = '\\' then "\\\\"
  else if c = '\n' then "\\n"
  else if c = '\t' then "\\t"
  else if c = '\r' then "\\r"
  else if c = Char.ofNat 0 then "\\0"
  else if c.toNat < 32 ∨ c.toNat = 127 then "\\u\x7b" ++ hexString c.toNat ++ "\x7d"
  else String.singleton c

def escapeDebugStrData : List Char → String
  | [] => ""
  | c :: rest => escapeDebugStrChar c ++ escapeDebugStrData rest

/-- Rust `{:?}` of a `str` / `String` / `PathBuf`-as-string. -/
def rustDebugStr (s : String) : String :=
  "\"" ++ escapeDebugStrData s.data ++ "\""

/-- A character that Rust's `escape_debug` passes through unchanged:
printable ASCII other than the quote and the backslash. -/
def plainChar (c : Char) : Bool :=
  31 < c.toNat && c.toNat < 127 && c ≠ '"' && c ≠ '\\'

/-- Rust `{:?}` of a `char` (double quotes are not escaped there). -/
def rustDebugChar (c : Char) : String :=
  "'" ++
    (if c = '\'' then "\\'"
     else if c = '"' then "\""
     else escapeDebugStrChar c) ++ "'"

/-- Rust `{:?}` of a slice/`Vec`, given renderings of the elements. -/
def rustDebugList (items : List String) : String :=
  "[" ++ String.intercalate ", " items ++ "]"

/-! ## Paths

A POSIX path is modelled as its list of (non-empty, non-separator)
components plus a leading-separator flag.  The `Stat` data model of the
repository only ever stores relative paths (see the invariant in the
spec's section 3), so stats carry bare segment lists; the flag appears
where the code explicitly tests `is_relative`/`is_absolute`.
-/

structure OsPath where
  absolute : Bool
  segments : List String
deriving DecidableEq, Repr

/-- The string a Rust `PathBuf` holding this path would render as. -/
def OsPath.render (p : OsPath) : String :=
  (if p.absolute then "/" else "") ++ String.intercalate "/" p.segments

def rustDebugOsPath (p : OsPath) : String :=
  rustDebugStr p.render

/-- `Path::parent` restricted to the shapes the embedded code meets:
`None` exactly for an empty relative path, otherwise drop the last
segment. -/
def parentSegs : List String → Option (List String)
  | [] => none
  | p => some p.dropLast

/-! ## The glob crate's `Pattern`

`PathGlob::parse` compiles each component — this is external `glob` crate
code (`Pattern::new`), reproduced here because the parser's behavior and
error strings depend on it.  A `Pattern` is its original string, its
compiled token list and its `is_recursive` flag; equality of patterns (as
derived in Rust) is equality of all three fields.
-/

inductive CharSpecifier where
  | SingleChar (c : Char)
  | CharRange (lo hi : Char)
deriving DecidableEq, Repr

inductive PatternToken where
  | Char (c : Char)
  | AnyChar
  | AnySequence
  | AnyRecursiveSequence
  | AnyWithin (specs : List CharSpecifier)
  | AnyExcept (specs : List CharSpecifier)
deriving DecidableEq, Repr

structure PatternError where
  pos : Nat
  msg : String
deriving DecidableEq, Repr

def ERROR_WILDCARDS : String := "wildcards are either regular `*` or recursive `**`"

def ERROR_RECURSIVE_WILDCARDS : String := "recursive wildcards must form a single path component"

def ERROR_INVALID_RANGE : String := "invalid range pattern"

structure Pattern where
  original : String
  tokens : List PatternToken
  is_recursive : Bool
deriving DecidableEq, Repr

def rustDebugCharSpecifier : CharSpecifier → String
  | .SingleChar c => "SingleChar(" ++ rustDebugChar c ++ ")"
  | .CharRange lo hi => "CharRange(" ++ rustDebugChar lo ++ ", " ++ rustDebugChar hi ++ ")"

def rustDebugPatternToken : PatternToken → String
  | .Char c => "Char(" ++ rustDebugChar c ++ ")"
  | .AnyChar => "AnyChar"
  | .AnySequence => "AnySequence"
  | .AnyRecursiveSequence => "AnyRecursiveSequence"
  | .AnyWithin specs => "AnyWithin(" ++ rustDebugList (specs.map rustDebugCharSpecifier) ++ ")"
  | .AnyExcept specs => "AnyExcept(" ++ rustDebugList (specs.map rustDebugCharSpecifier) ++ ")"

def rustDebugPattern (p : Pattern) : String :=
  "Pattern \x7b original: " ++ rustDebugStr p.original ++
    ", tokens: " ++ rustDebugList (p.tokens.map rustDebugPatternToken) ++
    ", is_recursive: " ++ (if p.is_recursive then "true" else "false") ++ " \x7d"

def rustDebugPatternError (e : PatternError) : String :=
  "PatternError \x7b pos: " ++ toString e.pos ++
    ", msg: " ++ rustDebugStr e.msg ++ " \x7d"

/-- `parse_char_specifiers` of the glob crate: a `-` with a character on
both sides makes a range, everything else is a single character. -/
def parse_char_specifiers : List Char → List CharSpecifier
  | a :: '-' :: b :: rest => .CharRange a b :: parse_char_specifiers rest
  | a :: rest => .SingleChar a :: parse_char_specifiers rest
  | [] => []

/-- The main loop of the glob crate's `Pattern::new`, compiling a pattern
string into tokens.  `pos` is the absolute index of the head of
`remaining` in the original string and `prev` the character just before
it (the loop looks one character back to validate `**`).  `fuel` makes
the recursion structural; `Pattern.new` passes `length + 1`, which always
suffices because every step consumes at least one character. -/
def tokenizeLoop :
    Nat → Nat → Option Char → List Char → List PatternToken → Bool →
    Except PatternError (List PatternToken × Bool)
  | 0, pos, _, _, _, _ => .error ⟨pos, "fuel exhausted"⟩
  | _ + 1, _, _, [], tokens, is_rec => .ok (tokens, is_rec)
  | fuel + 1, pos, prev, c :: rest, tokens, is_rec =>
    if c = '?' then
      tokenizeLoop fuel (pos + 1) (some '?') rest (tokens ++ [.AnyChar]) is_rec
    else if c = '*' then
      -- count the run of consecutive stars
      match rest with
      | '*' :: '*' :: _ => .error ⟨pos + 2, ERROR_WILDCARDS⟩
      | '*' :: rest2 =>
        -- a `**` run: it must stand alone as a path component
        if pos = 0 ∨ prev = some '/' then
          match rest2 with
          | '/' :: rest3 =>
            if tokens.length > 1 ∧ tokens.getLast? = some .AnyRecursiveSequence then
              tokenizeLoop fuel (pos + 3) (some '/') rest3 tokens is_rec
            else
              tokenizeLoop fuel (pos + 3) (some '/') rest3
                (tokens ++ [.AnyRecursiveSequence]) true
          | [] =>
            if tokens.length > 1 ∧ tokens.getLast? = some .AnyRecursiveSequence then
              .ok (tokens, is_rec)
            else
              .ok (tokens ++ [.AnyRecursiveSequence], true)
          | _ => .error ⟨pos + 2, ERROR_RECURSIVE_WILDCARDS⟩
        else .error ⟨pos - 1, ERROR_RECURSIVE_WILDCARDS⟩
      | _ =>
        tokenizeLoop fuel (pos + 1) (some '*') rest (tokens ++ [.AnySequence]) is_rec
    else if c = '[' then
      match rest with
      | '!' :: rest2 =>
        -- `chars[i + 3..].position(']')`, class body `chars[i + 2 .. i + 3 + j]`
        match rest2 with
        | c2 :: rest3 =>
          match rest3.findIdx? (· = ']') with
          | none => .error ⟨pos, ERROR_INVALID_RANGE⟩
          | some j =>
            let cls := c2 :: rest3.take j
            tokenizeLoop fuel (pos + j + 4) (some ']') (rest3.drop (j + 1))
              (tokens ++ [.AnyExcept (parse_char_specifiers cls)]) is_rec
        | [] => .error ⟨pos, ERROR_INVALID_RANGE⟩
      | c1 :: rest2 =>
        -- `c1 ≠ '!'` here; `chars[i + 2..].position(']')`, body `chars[i + 1 .. i + 2 + j]`
        match rest2.findIdx? (· = ']') with
        | none => .error ⟨pos, ERROR_INVALID_RANGE⟩
        | some j =>
          let cls := c1 :: rest2.take j
          tokenizeLoop fuel (pos + j + 3) (some ']') (rest2.drop (j + 1))
            (tokens ++ [.AnyWithin (parse_char_specifiers cls)]) is_rec
      | [] => .error ⟨pos, ERROR_INVALID_RANGE⟩
    else
      tokenizeLoop fuel (pos + 1) (some c) rest (tokens ++ [.Char c]) is_rec

/-- The glob crate's `Pattern::new`. -/
def Pattern.new (pattern : String) : Except PatternError Pattern :=
  (tokenizeLoop (pattern.data.length + 1) 0 none pattern.data [] false).map
    fun tb => ⟨pattern, tb.1, tb.2⟩

def SINGLE_STAR_GLOB : Pattern := ⟨"*", [.AnySequence], false⟩

def DOUBLE_STAR : String := "**"

def DOUBLE_STAR_GLOB : Pattern := ⟨"**", [.AnyRecursiveSequence], true⟩

def PARENT_DIR : String := ".."

/-! ## The `Stat` / `PathStat` data model (`fs/src/lib.rs`) -/

structure Link where
  path : List String
deriving DecidableEq, Repr

structure Dir where
  path : List String
deriving DecidableEq, Repr

structure File where
  path : List String
  is_executable : Bool
deriving DecidableEq, Repr

inductive Stat where
  | Link (l : Link)
  | Dir (d : Dir)
  | File (f : File)
deriving DecidableEq, Repr

def Stat.path : Stat → List String
  | .Dir d => d.path
  | .File f => f.path
  | .Link l => l.path

/-- `PathStat` pairs the symbolic path the user asked for with the
canonical `Stat` it resolves to; links never appear. -/
inductive PathStat where
  | Dir (path : List String) (stat : Dir)
  | File (path : List String) (stat : File)
deriving DecidableEq, Repr

def PathStat.path : PathStat → List String
  | .Dir p _ => p
  | .File p _ => p

def PathStat.stat : PathStat → Stat
  | .Dir _ d => .Dir d
  | .File _ f => .File f

/-! ## `PathGlob` and its parser (`fs/src/lib.rs`, `PathGlob::parse`) -/

inductive PathGlob where
  | Wildcard (canonical_dir : Dir) (symbolic_path : List String) (wildcard : Pattern)
  | DirWildcard (canonical_dir : Dir) (symbolic_path : List String) (wildcard : Pattern)
      (remainder : List Pattern)
deriving DecidableEq, Repr

def rootEscapeHead : String := "Globs may not traverse outside the root: "

def rootEscapeError (parts : List Pattern) : String :=
  rootEscapeHead ++ rustDebugList (parts.map rustDebugPattern)

/--
`PathGlob::parse_globs`: convert a sequence of compiled component
patterns into `PathGlob` objects.  A leading `**` yields the two
alternatives of the recursive wildcard; a leading `..` pops the canonical
dir (erroring when already at the root) while the symbolic path keeps the
literal `..`; otherwise a single remaining component is a `Wildcard` and
several are a `DirWildcard`.
-/
def PathGlob.parse_globs (canonical_dir : Dir) (symbolic_path : List String) :
    List Pattern → Except String (List PathGlob)
  | [] => .ok []
  | p :: rest =>
    if p.original = DOUBLE_STAR then
      match rest with
      | [] =>
        -- a trailing `**` matches everything inside, at any depth, and
        -- also the current directory itself
        .ok [.DirWildcard canonical_dir symbolic_path SINGLE_STAR_GLOB [DOUBLE_STAR_GLOB],
             .Wildcard canonical_dir symbolic_path SINGLE_STAR_GLOB]
      | q :: rest2 =>
        -- a `**` in a dirname: one alternative keeps the double wildcard
        -- active, the other treats it as matched zero times
        let pathglob_with_doublestar :=
          PathGlob.DirWildcard canonical_dir symbolic_path SINGLE_STAR_GLOB (p :: q :: rest2)
        let pathglob_no_doublestar :=
          match rest2 with
          | [] => PathGlob.Wildcard canonical_dir symbolic_path q
          | _ :: _ => PathGlob.DirWildcard canonical_dir symbolic_path q rest2
        .ok [pathglob_with_doublestar, pathglob_no_doublestar]
    else if p.original = PARENT_DIR then
      -- `PathBuf::pop` fails exactly on an empty (relative) path
      if canonical_dir.path = [] then
        .error (rootEscapeError (p :: rest))
      else
        PathGlob.parse_globs ⟨canonical_dir.path.dropLast⟩ (symbolic_path ++ [PARENT_DIR]) rest
    else
      match rest with
      | [] => .ok [.Wildcard canonical_dir symbolic_path p]
      | _ :: _ => .ok [.DirWildcard canonical_dir symbolic_path p rest]

/--
The component loop of `PathGlob::parse`: skip `.` components, drop a `**`
that immediately follows another `**` (`prev_was_doublestar` is not
updated by the skip, exactly as the `continue` in the source), and compile
every remaining component with `Pattern::new`, wrapping compile failures
in the "Could not parse" message.
-/
def PathGlob.parseParts (filespec : String) :
    List String → Bool → Except String (List Pattern)
  | [], _ => .ok []
  | c :: rest, prev_was_doublestar =>
    if c = "." then
      PathGlob.parseParts filespec rest prev_was_doublestar
    else
      let cur_is_doublestar := c = DOUBLE_STAR
      if prev_was_doublestar ∧ cur_is_doublestar then
        PathGlob.parseParts filespec rest prev_was_doublestar
      else
        match Pattern.new c with
        | .error e =>
          .error ("Could not parse " ++ rustDebugStr filespec ++ " as a glob: " ++
            rustDebugPatternError e)
        | .ok pat =>
          (PathGlob.parseParts filespec rest cur_is_doublestar).map fun more => pat :: more

/-- Split a character list at `/` separators. -/
def splitSegsAux : List Char → List Char → List String
  | [], acc => [String.mk acc.reverse]
  | '/' :: rest, acc => String.mk acc.reverse :: splitSegsAux rest []
  | c :: rest, acc => splitSegsAux rest (c :: acc)

def splitSegs (s : String) : List String := splitSegsAux s.data []

/--
`Path::components` for the POSIX paths the parser receives: a leading
separator is the `RootDir` component (rejected by the parse loop as an
absolute path), and the remaining components are the non-empty segments
between separators (`.` segments are dropped by the parse loop itself).
-/
def pathComponents (filespec : String) : Except String (List String) :=
  match filespec.data with
  | '/' :: _ => .error ("Absolute paths not supported: " ++ rustDebugStr filespec)
  | _ => .ok ((splitSegs filespec).filter fun c => c ≠ "")

/-- `PathGlob::parse`: split a filespec into components, eliminate
consecutive `**`s, compile the component patterns and hand them to
`parse_globs`. -/
def PathGlob.parse (canonical_dir : Dir) (symbolic_path : List String)
    (filespec : String) : Except String (List PathGlob) :=
  match pathComponents filespec with
  | .error e => .error e
  | .ok comps =>
    match PathGlob.parseParts filespec comps false with
    | .error e => .error e
    | .ok parts => PathGlob.parse_globs canonical_dir symbolic_path parts

/-! ## Substring search

Bool-valued substring check used to state the error-message claims. -/

def startsWithList : List Char → List Char → Bool
  | _, [] => true
  | [], _ :: _ => false
  | h :: hs, n :: ns => h = n && startsWithList hs ns

def containsList (needle : List Char) : List Char → Bool
  | [] => startsWithList [] needle
  | h :: t => startsWithList (h :: t) needle || containsList needle t

/-- `true` iff `needle` occurs contiguously inside `hay`. -/
def strContains (hay needle : String) : Bool :=
  containsList needle.data hay.data

/-- `true` iff `s` begins with `head`. -/
def strStarts (s head : String) : Bool :=
  startsWithList s.data head.data

/-! ## The filesystem model

`PosixFS` reads the real filesystem below its canonicalized `root`.  The
tree below the root is modelled as a finite map from a normalized
relative path (its segment list, `.`/`..` resolved) to the kind of entry
living there.  The operating system's resolution of `.` and `..` inside
a submitted path is modelled by normalizing before looking up; a path
whose entry is absent is `NotFound`.
-/

inductive FsEntry where
  | dir
  | file (mode : Nat)
  | link (target : OsPath)
  | other (ftDebug : String)
deriving DecidableEq, Repr

def Fs := List (List String × FsEntry)

inductive IoErrorKind where
  | NotFound
  | InvalidInput
  | InvalidData
  | Other
deriving DecidableEq, Repr

structure IoError where
  kind : IoErrorKind
  msg : String
deriving DecidableEq, Repr

/-- An `std::fs::FileType`: an opaque OS value interrogated through the
three predicates, rendered opaquely by `{:?}`. -/
structure FileType where
  is_dir : Bool
  is_file : Bool
  is_symlink : Bool
  debugRepr : String
deriving DecidableEq, Repr

def FsEntry.fileType : FsEntry → FileType
  | .dir => ⟨true, false, false, "FileType(Dir)"⟩
  | .file _ => ⟨false, true, false, "FileType(File)"⟩
  | .link _ => ⟨false, false, true, "FileType(Symlink)"⟩
  | .other d => ⟨false, false, false, d⟩

def FsEntry.mode : FsEntry → Nat
  | .file m => m
  | _ => 0

/-- Resolve `.` and `..` segments textually (the model of what the
kernel's path walk does for paths whose intermediate components are real
directories; `..` at the top stays at the root). -/
def normalizeSegs (segs : List String) : List String :=
  segs.foldl
    (fun acc c =>
      if c = "." then acc
      else if c = ".." then acc.dropLast
      else acc ++ [c])
    []

def findEntry : Fs → List String → Option FsEntry
  | [], _ => none
  | (k, e) :: rest, key => if k = key then some e else findEntry rest key

/-- Look an entry up at a (possibly non-normalized) relative path. -/
def lookupFs (fs : Fs) (p : List String) : Option FsEntry :=
  findEntry fs (normalizeSegs p)

def notFoundError : IoError :=
  ⟨.NotFound, "No such file or directory (os error 2)"⟩

/-- `fs::symlink_metadata(root.join(relative_path))`, reduced to the
entry kind the model stores. -/
def symlink_metadata (fs : Fs) (p : List String) : Except IoError FsEntry :=
  match lookupFs fs p with
  | some e => .ok e
  | none => .error notFoundError

/-! ## `PosixFS` (`fs/src/lib.rs`) -/

/--
`PosixFS::stat_internal`: makes a `Stat` for `path_for_stat` relative to
`absolute_path_to_root`.  `get_metadata` stands for the lazy metadata
closure, already reduced to the `mode` bits it is consulted for.
-/
def PosixFS.stat_internal (path_for_stat : OsPath) (file_type : FileType)
    (absolute_path_to_root : OsPath) (get_metadata : Except IoError Nat) :
    Except IoError Stat :=
  if path_for_stat.absolute then
    .error ⟨.InvalidInput,
      "Argument path_for_stat to PosixFS::stat must be relative path, got " ++
        rustDebugOsPath path_for_stat⟩
  else if ¬ absolute_path_to_root.absolute then
    .error ⟨.InvalidInput,
      "Argument absolute_path_to_root to PosixFS::stat must be absolute path, got " ++
        rustDebugOsPath absolute_path_to_root⟩
  else if file_type.is_dir then
    .ok (.Dir ⟨path_for_stat.segments⟩)
  else if file_type.is_file then
    get_metadata.map fun mode =>
      .File ⟨path_for_stat.segments, mode &&& 0o100 == 0o100⟩
  else if file_type.is_symlink then
    .ok (.Link ⟨path_for_stat.segments⟩)
  else
    .error ⟨.InvalidData,
      "Expected File, Dir or Link, but " ++ rustDebugOsPath path_for_stat ++
        " (relative to " ++ rustDebugOsPath absolute_path_to_root ++ ") was a " ++
        file_type.debugRepr⟩

/-- `PosixFS::stat_path`: `symlink_metadata` plus `stat_internal`. -/
def PosixFS.stat_path (fs : Fs) (relative_path : List String) (root : OsPath) :
    Except IoError Stat :=
  match symlink_metadata fs relative_path with
  | .error e => .error e
  | .ok metadata =>
    PosixFS.stat_internal ⟨false, relative_path⟩ metadata.fileType root (.ok metadata.mode)

/-- The raw `read_link(2)` on the entry at `p`: the stored target of a
symlink, `EINVAL`-style error on a non-link, `NotFound` when absent. -/
def readlinkRaw (fs : Fs) (p : List String) : Except IoError OsPath :=
  match lookupFs fs p with
  | some (.link target) => .ok target
  | some _ => .error ⟨.InvalidInput, "Invalid argument (os error 22)"⟩
  | none => .error notFoundError

/--
`PosixFS::read_link`: read the link target; reject an absolute target
with a data error; join a relative target onto the link's parent
directory, a link without a parent being a data error.
-/
def PosixFS.read_link (fs : Fs) (root : OsPath) (link : Link) :
    Except IoError (List String) :=
  let link_parent := parentSegs link.path
  let link_abs : OsPath := ⟨root.absolute, root.segments ++ link.path⟩
  match readlinkRaw fs link.path with
  | .error e => .error e
  | .ok path_buf =>
    if path_buf.absolute then
      .error ⟨.InvalidData, "Absolute symlink: " ++ rustDebugOsPath link_abs⟩
    else
      match link_parent with
      | some parent => .ok (parent ++ path_buf.segments)
      | none =>
        .error ⟨.InvalidData, "Symlink without a parent?: " ++ rustDebugOsPath link_abs⟩

/-- The entries of the directory `d`: every stored path one segment below
`d`, in storage (i.e. unspecified readdir) order. -/
def childrenOf (fs : Fs) (d : List String) : List (String × FsEntry) :=
  fs.filterMap fun pr =>
    match pr.1.getLast? with
    | some name => if pr.1.dropLast = d then some (name, pr.2) else none
    | none => none

/-- `read_dir`: succeeds with the listing exactly for an existing
directory (the root always exists, `PosixFS::new` canonicalized it). -/
def readDirList (fs : Fs) (d : List String) : Except IoError (List (String × FsEntry)) :=
  if d = [] ∨ lookupFs fs d = some .dir then .ok (childrenOf fs d)
  else .error notFoundError

/-- `join_all` / sequencing of per-element fallible computations: one
result per input, in input order, the first error failing the whole
batch. -/
def mapExcept (f : α → Except ε β) : List α → Except ε (List β)
  | [] => .ok []
  | a :: rest =>
    match f a with
    | .error e => .error e
    | .ok b =>
      match mapExcept f rest with
      | .error e => .error e
      | .ok bs => .ok (b :: bs)

/-- Strict character order (by Unicode scalar value, which for UTF-8
strings coincides with byte order). -/
def charLtB (a b : Char) : Bool := Nat.blt a.toNat b.toNat

/-- Strict lexicographic order on character lists — the order of Rust's
`str`/`OsStr` comparison. -/
def strLtListB : List Char → List Char → Bool
  | [], [] => false
  | [], _ :: _ => true
  | _ :: _, [] => false
  | a :: as, b :: bs => if charLtB a b then true else if charLtB b a then false else strLtListB as bs

def strLtB (a b : String) : Bool := strLtListB a.data b.data

/-- Ascending lexicographic order on segment paths — `Path::cmp`, which
compares component by component. -/
def pathLeB : List String → List String → Bool
  | [], _ => true
  | _ :: _, [] => false
  | a :: as, b :: bs => if strLtB a b then true else if strLtB b a then false else pathLeB as bs

def statLe (s1 s2 : Stat) : Prop := pathLeB s1.path s2.path = true

instance : DecidableRel statLe := fun s1 s2 => by
  unfold statLe; infer_instance

/-- `stats.sort_by(|s1, s2| s1.path().cmp(s2.path()))`. -/
def sortStats (stats : List Stat) : List Stat :=
  List.insertionSort statLe stats

/--
`PosixFS::scandir_sync`: list the directory, stat each entry (the
`dir_entry.file_type()` of the entry, the metadata closure supplying the
mode), and sort the result by path.
-/
def PosixFS.scandir_sync (fs : Fs) (root : OsPath) (dir_relative_to_root : Dir) :
    Except IoError (List Stat) :=
  match readDirList fs dir_relative_to_root.path with
  | .error e => .error e
  | .ok listing =>
    match mapExcept
        (fun ne => PosixFS.stat_internal ⟨false, dir_relative_to_root.path ++ [ne.1]⟩
          ne.2.fileType root (.ok ne.2.mode))
        listing with
    | .error e => .error e
    | .ok stats => .ok (sortStats stats)

/-! ## The path canonicalizer and `path_stats`

`PathStatGetter::path_stats` (`fs/src/lib.rs`) resolves a final `Link`
stat through `canonicalize`, which lives in the repository's
`glob_matching` module — that module is not among the provided sources,
so `canonicalize` is modelled from the spec.
-/

/-- Modelled from the spec: the traversal bound of the Path Canonicalizer
(spec section 4.3, "maintain a traversal bound; exceeding it signals a
cycle error"); the concrete constant is not among the provided sources. -/
def MAX_LINK_DEPTH : Nat := 64

/--
Modelled from the spec: the Path Canonicalizer of section 4.3
(implemented in the repository's `glob_matching` module, which is not
among the provided sources).  "Resolve the immediate `Stat` at the path.
If it is a `Link`, read the link target (…an absolute symlink target is a
hard error…); re-resolve relative to the link's parent directory; repeat.
Maintain a traversal bound; exceeding it signals a cycle error.  A link
whose target does not exist is treated as no match."  Directories reached
through the chain are kept canonical (normalized), while the symbolic
path exposed to the caller stays the original route.
-/
def canonicalize (fs : Fs) (root : OsPath) (symbolic_path : List String) (link : Link) :
    Nat → Except IoError (Option PathStat)
  | 0 => .error ⟨.Other, "Maximum link depth exceeded"⟩
  | fuel + 1 =>
    match PosixFS.read_link fs root link with
    | .error e => .error e
    | .ok dest =>
      match PosixFS.stat_path fs (normalizeSegs dest) root with
      | .error e => if e.kind = .NotFound then .ok none else .error e
      | .ok (.Link l) => canonicalize fs root symbolic_path l fuel
      | .ok (.Dir d) => .ok (some (.Dir symbolic_path d))
      | .ok (.File f) => .ok (some (.File symbolic_path f))

/-- The per-path future body of `path_stats`: stat the path, turn
`NotFound` into an absent result, canonicalize a link (dropping dangling
links), and pair dirs/files with themselves. -/
def pathStatOne (fs : Fs) (root : OsPath) (path : List String) :
    Except IoError (Option PathStat) :=
  match PosixFS.stat_path fs path root with
  | .error err => if err.kind = .NotFound then .ok none else .error err
  | .ok (.Link link) => canonicalize fs root link.path link MAX_LINK_DEPTH
  | .ok (.Dir dir) => .ok (some (.Dir dir.path dir))
  | .ok (.File file) => .ok (some (.File file.path file))

/-- `PathStatGetter::path_stats for Arc<PosixFS>`. -/
def path_stats (fs : Fs) (root : OsPath) (paths : List (List String)) :
    Except IoError (List (Option PathStat)) :=
  mapExcept (pathStatOne fs root) paths

/-- A link chain that ends, within `fuel` hops, at a target that does not
exist: the claim's notion of a dangling symlink. -/
def linkChainDangles (fs : Fs) (root : OsPath) (link : Link) : Nat → Bool
  | 0 => false
  | fuel + 1 =>
    match PosixFS.read_link fs root link with
    | .error _ => false
    | .ok dest =>
      match PosixFS.stat_path fs (normalizeSegs dest) root with
      | .error e => e.kind == .NotFound
      | .ok (.Link l) => linkChainDangles fs root l fuel
      | .ok _ => false

/-- The stat a path resolves to after following its chain of symlinks
(each hop read through `PosixFS::read_link` and re-stat'ed at the
normalized destination). -/
inductive ResolvesTo (fs : Fs) (root : OsPath) : List String → Stat → Prop where
  | dir (p : List String) (d : Dir) :
      PosixFS.stat_path fs p root = .ok (.Dir d) → ResolvesTo fs root p (.Dir d)
  | file (p : List String) (f : File) :
      PosixFS.stat_path fs p root = .ok (.File f) → ResolvesTo fs root p (.File f)
  | link (p : List String) (l : Link) (dest : List String) (s : Stat) :
      PosixFS.stat_path fs p root = .ok (.Link l) →
      PosixFS.read_link fs root l = .ok dest →
      ResolvesTo fs root (normalizeSegs dest) s →
      ResolvesTo fs root p s

/-- The embedded stat of a `PathStat` denotes a real, canonical dir/file
entry of the filesystem, with the executable bit matching the mode. -/
def statRefersToRealEntry (fs : Fs) : PathStat → Prop
  | .Dir _ d => lookupFs fs d.path = some .dir
  | .File _ f => ∃ m, lookupFs fs f.path = some (.file m) ∧ f.is_executable = (m &&& 0o100 == 0o100)

/-! ## The shared-memory alternate backend (`vcfs`) -/

/-- The thrift-generated descriptor read from the wire: every field is
optional. -/
structure FileWithContentsDescriptor where
  path : Option String
  contents_start : Option Int
  contents_end : Option Int
deriving DecidableEq, Repr

/-- The panics `FileWithContents::from_shm_descriptor` can raise: the
explicit `assert!`, the implicit bounds check of the slice expression,
and the `unimplemented!` arm for missing fields. -/
inductive ShmPanic where
  | assertFailed
  | sliceOutOfBounds
  | unimplementedDescriptor
deriving DecidableEq, Repr

structure FileWithContents where
  path : String
  contents : List Nat
deriving DecidableEq, Repr

/-- `i64 as usize` (64-bit two's-complement wrap; `18446744073709551616`
is `2^64`). -/
def asUsize (i : Int) : Nat := (i % 18446744073709551616).toNat

/--
`FileWithContents::from_shm_descriptor`: destructure the descriptor
(missing fields are `unimplemented!`), `assert!(contents_end >=
contents_start)`, then slice `bytes[contents_start as usize .. contents_end
as usize]` — the only bounds protection past the assert is the slice
expression's own panic.
-/
def FileWithContents.from_shm_descriptor (bytes : List Nat)
    (fd : FileWithContentsDescriptor) : Except ShmPanic FileWithContents :=
  match fd.path, fd.contents_start, fd.contents_end with
  | some path, some contents_start, some contents_end =>
    if contents_end ≥ contents_start then
      let s := asUsize contents_start
      let e := asUsize contents_end
      if s ≤ e ∧ e ≤ bytes.length then
        .ok ⟨path, (bytes.drop s).take (e - s)⟩
      else .error .sliceOutOfBounds
    else .error .assertFailed
  | _, _, _ => .error .unimplementedDescriptor

/-- The path segments of a thrift path string (`Path::new(path)`). -/
def pathSegsOfString (p : String) : List String :=
  (splitSegs p).filter fun c => c ≠ ""

/--
The result-construction core of `VcfsInstance::expand_globs`: for each
descriptor returned by the RPC call, slice the file out of shared memory
and emit `PathStat::File { path, stat: File { path, is_executable: false } }`.
-/
def VcfsInstance.expand_globs_results (bytes : List Nat)
    (file_descriptors : List FileWithContentsDescriptor) :
    Except ShmPanic (List PathStat) :=
  mapExcept
    (fun fd =>
      (FileWithContents.from_shm_descriptor bytes fd).map fun fwc =>
        PathStat.File (pathSegsOfString fwc.path)
          ⟨pathSegsOfString fwc.path, false⟩)
    file_descriptors

/-! ## Helper lemmas -/

theorem startsWithList_append (needle b : List Char) :
    startsWithList (needle ++ b) needle = true := by
  induction needle with
  | nil => simp [startsWithList]
  | cons c rest ih => simp [startsWithList, ih]

theorem containsList_append (pre mid post : List Char) :
    containsList mid (pre ++ (mid ++ post)) = true := by
  induction pre with
  | nil =>
    cases mid with
    | nil => cases post <;> simp [containsList, startsWithList]
    | cons m ms =>
      have h1 : startsWithList ((m :: ms) ++ post) (m :: ms) = true :=
        startsWithList_append _ _
      simp only [List.cons_append] at h1
      simp [containsList, h1]
  | cons x pre' ih => simp [containsList, ih]

theorem strContains_append (a s b : String) :
    strContains (a ++ s ++ b) s = true := by
  have h : (a ++ s ++ b).data = a.data ++ (s.data ++ b.data) := by
    simp [String.data_append]
  simp only [strContains, h]
  exact containsList_append a.data s.data b.data

theorem strStarts_append (h t : String) : strStarts (h ++ t) h = true := by
  simp only [strStarts, String.data_append]
  exact startsWithList_append h.data t.data

theorem mapExcept_ok_length {α β ε : Type _} {f : α → Except ε β} :
    ∀ {l : List α} {r : List β}, mapExcept f l = .ok r → r.length = l.length := by
  intro l
  induction l with
  | nil => intro r h; simp [mapExcept] at h; subst h; rfl
  | cons a rest ih =>
    intro r h
    cases hfa : f a <;> simp [mapExcept, hfa] at h
    cases hrest : mapExcept f rest <;> simp [hrest] at h
    subst h
    simp [ih hrest]

theorem mapExcept_ok_get {α β ε : Type _} {f : α → Except ε β} :
    ∀ {l : List α} {r : List β}, mapExcept f l = .ok r →
      ∀ (i : Nat) (a : α), l[i]? = some a → ∃ b, r[i]? = some b ∧ f a = .ok b := by
  intro l
  induction l with
  | nil => intro r _ i a ha; simp at ha
  | cons x rest ih =>
    intro r h i a ha
    cases hfa : f x <;> simp [mapExcept, hfa] at h
    cases hrest : mapExcept f rest <;> simp [hrest] at h
    subst h
    cases i with
    | zero =>
      simp at ha
      subst ha
      exact ⟨_, by simp, hfa⟩
    | succ n =>
      simp at ha ⊢
      exact ih hrest n a ha

theorem mapExcept_ok_mem {α β ε : Type _} {f : α → Except ε β} :
    ∀ {l : List α} {r : List β}, mapExcept f l = .ok r →
      ∀ b ∈ r, ∃ a ∈ l, f a = .ok b := by
  intro l
  induction l with
  | nil => intro r h b hb; simp [mapExcept] at h; subst h; simp at hb
  | cons x rest ih =>
    intro r h b hb
    cases hfa : f x <;> simp [mapExcept, hfa] at h
    cases hrest : mapExcept f rest <;> simp [hrest] at h
    subst h
    rcases List.mem_cons.mp hb with hbe | hbm
    · subst hbe
      exact ⟨x, by simp, hfa⟩
    · rcases ih hrest b hbm with ⟨a, hal, hfab⟩
      exact ⟨a, by simp [hal], hfab⟩

/-! ## C1: repeated `**` collapses -/

/--
C1: for every filespec, `PathGlob::parse` collapses consecutive `**`
components into one: the component loop gives the same compiled parts for
`… ++ ["**", "**"] ++ …` as for `… ++ ["**"] ++ …` (whatever the state of
its `prev_was_doublestar` flag), and consequently the repeated form
`"a/**/**/b"` parses to exactly the fragments of `"a/**/b"`.
-/
theorem parse_collapses_repeated_doublestar :
    (∀ (filespec : String) (xs ys : List String) (prev : Bool),
      PathGlob.parseParts filespec (xs ++ "**" :: "**" :: ys) prev =
        PathGlob.parseParts filespec (xs ++ "**" :: ys) prev) ∧
    (∀ (canonical_dir : Dir) (symbolic_path : List String),
      PathGlob.parse canonical_dir symbolic_path "a/**/**/b" =
        PathGlob.parse canonical_dir symbolic_path "a/**/b") := by
  constructor
  · intro filespec xs ys prev
    induction xs generalizing prev with
    | nil =>
      cases prev with
      | true => simp [PathGlob.parseParts, DOUBLE_STAR]
      | false => simp [PathGlob.parseParts, DOUBLE_STAR]
    | cons c xs ih =>
      by_cases hdot : c = "."
      · simp [PathGlob.parseParts, hdot, ih]
      · by_cases hds : c = "**"
        · cases prev with
          | true => simp [PathGlob.parseParts, hdot, hds, DOUBLE_STAR, ih]
          | false => simp [PathGlob.parseParts, hdot, hds, DOUBLE_STAR, ih]
        · cases hpn : Pattern.new c with
          | error e => simp [PathGlob.parseParts, hdot, hds, DOUBLE_STAR, hpn]
          | ok pat => simp [PathGlob.parseParts, hdot, hds, DOUBLE_STAR, hpn, ih]
  · intro canonical_dir symbolic_path
    rfl

/-! ## C2: a lone leading `**` -/

/--
C2: `parse_globs` on a pattern sequence that is exactly one `**`
component returns precisely the two alternatives: a `DirWildcard` with
wildcard `*` and remainder `["**"]` (recursively re-applying `**` inside
every subdirectory), and a `Wildcard` with wildcard `*` matching directly
in the current directory.
-/
theorem parse_globs_single_doublestar (canonical_dir : Dir)
    (symbolic_path : List String) (p : Pattern) (h : p.original = DOUBLE_STAR) :
    PathGlob.parse_globs canonical_dir symbolic_path [p] =
      .ok [.DirWildcard canonical_dir symbolic_path SINGLE_STAR_GLOB [DOUBLE_STAR_GLOB],
           .Wildcard canonical_dir symbolic_path SINGLE_STAR_GLOB] := by
  simp [PathGlob.parse_globs, h]

theorem parse_globs_single_doublestar_witness :
    PathGlob.parse_globs ⟨["src"]⟩ ["src"] [DOUBLE_STAR_GLOB] =
      .ok [.DirWildcard ⟨["src"]⟩ ["src"] SINGLE_STAR_GLOB [DOUBLE_STAR_GLOB],
           .Wildcard ⟨["src"]⟩ ["src"] SINGLE_STAR_GLOB] :=
  parse_globs_single_doublestar ⟨["src"]⟩ ["src"] DOUBLE_STAR_GLOB rfl

/-! ## C3: a leading `..` -/

/--
C3: `parse_globs` on a leading `..` errors with the root-escape message
when the canonical dir is already empty (the root), and otherwise drops
the last canonical segment while pushing a literal `..` onto the symbolic
path before recursing on the remaining components.
-/
theorem parse_globs_parent_dir (canonical_dir : Dir) (symbolic_path : List String)
    (p : Pattern) (rest : List Pattern) (h : p.original = PARENT_DIR) :
    PathGlob.parse_globs canonical_dir symbolic_path (p :: rest) =
      (if canonical_dir.path = [] then
        .error (rootEscapeError (p :: rest))
      else
        PathGlob.parse_globs ⟨canonical_dir.path.dropLast⟩
          (symbolic_path ++ [PARENT_DIR]) rest) := by
  have hne : PARENT_DIR ≠ DOUBLE_STAR := by decide
  simp [PathGlob.parse_globs, h, hne]

theorem parse_globs_parent_dir_witness :
    (PathGlob.parse_globs ⟨["a", "b"]⟩ ["s"] [⟨"..", [.Char '.', .Char '.'], false⟩] =
      (if (["a", "b"] : List String) = [] then
        .error (rootEscapeError [⟨"..", [.Char '.', .Char '.'], false⟩])
      else
        PathGlob.parse_globs ⟨(["a", "b"] : List String).dropLast⟩ (["s"] ++ [PARENT_DIR]) [])) ∧
    (PathGlob.parse_globs ⟨[]⟩ [] [⟨"..", [.Char '.', .Char '.'], false⟩] =
      (if ([] : List String) = [] then
        .error (rootEscapeError [⟨"..", [.Char '.', .Char '.'], false⟩])
      else
        PathGlob.parse_globs ⟨([] : List String).dropLast⟩ ([] ++ [PARENT_DIR]) [])) :=
  ⟨parse_globs_parent_dir ⟨["a", "b"]⟩ ["s"] ⟨"..", [.Char '.', .Char '.'], false⟩ [] rfl,
   parse_globs_parent_dir ⟨[]⟩ [] ⟨"..", [.Char '.', .Char '.'], false⟩ [] rfl⟩

/-! ## C8: error strings and the offending input -/

theorem escapeDebugStrChar_plain (c : Char) (h : plainChar c = true) :
    escapeDebugStrChar c = String.singleton c := by
  simp [plainChar] at h
  obtain ⟨⟨⟨h1, h2⟩, h3⟩, h4⟩ := h
  have hn : c ≠ '\n' := by intro he; rw [he] at h1; exact absurd h1 (by decide)
  have ht : c ≠ '\t' := by intro he; rw [he] at h1; exact absurd h1 (by decide)
  have hr : c ≠ '\r' := by intro he; rw [he] at h1; exact absurd h1 (by decide)
  have h0 : c ≠ Char.ofNat 0 := by intro he; rw [he] at h1; exact absurd h1 (by decide)
  have hrange : ¬(c.toNat < 32 ∨ c.toNat = 127) := by omega
  simp [escapeDebugStrChar, h3, h4, hn, ht, hr, h0, hrange]

theorem escapeDebugStrData_plain :
    ∀ (l : List Char), (∀ c ∈ l, plainChar c = true) →
      escapeDebugStrData l = String.mk l := by
  intro l
  induction l with
  | nil => intro _; rfl
  | cons c rest ih =>
    intro h
    have hc := h c (by simp)
    have hrest := ih fun x hx => h x (by simp [hx])
    apply String.ext
    simp [escapeDebugStrData, escapeDebugStrChar_plain c hc, hrest,
      String.data_append, String.singleton]

theorem rustDebugStr_plain (s : String)
    (h : ∀ c ∈ s.data, plainChar c = true) :
    rustDebugStr s = "\"" ++ s ++ "\"" := by
  unfold rustDebugStr
  rw [escapeDebugStrData_plain s.data h]

theorem strContains_congr (e a s b : String) (he : e = a ++ s ++ b) :
    strContains e s = true := he ▸ strContains_append a s b

theorem strContains_rds (a b s : String) (hplain : ∀ c ∈ s.data, plainChar c = true) :
    strContains (a ++ rustDebugStr s ++ b) s = true := by
  rw [rustDebugStr_plain s hplain]
  apply strContains_congr _ (a ++ "\"") s ("\"" ++ b)
  simp [String.append_assoc]

theorem strContains_rds_end (a s : String) (hplain : ∀ c ∈ s.data, plainChar c = true) :
    strContains (a ++ rustDebugStr s) s = true := by
  rw [rustDebugStr_plain s hplain]
  apply strContains_congr _ (a ++ "\"") s "\""
  simp [String.append_assoc]

theorem parse_globs_error_shape :
    ∀ (parts : List Pattern) (canonical_dir : Dir) (symbolic_path : List String)
      (e : String),
      PathGlob.parse_globs canonical_dir symbolic_path parts = .error e →
      ∃ parts', e = rootEscapeError parts' := by
  intro parts
  induction parts with
  | nil => intro dir sym e h; simp [PathGlob.parse_globs] at h
  | cons p rest ih =>
    intro dir sym e h
    by_cases hds : p.original = DOUBLE_STAR
    · cases rest <;> simp [PathGlob.parse_globs, hds] at h
    · by_cases hpd : p.original = PARENT_DIR
      · by_cases hdir : dir.path = []
        · simp only [PathGlob.parse_globs, if_neg hds, if_pos hpd, if_pos hdir,
            Except.error.injEq] at h
          exact ⟨p :: rest, h.symm⟩
        · simp only [PathGlob.parse_globs, if_neg hds, if_pos hpd, if_neg hdir] at h
          exact ih _ _ _ h
      · cases rest <;> simp [PathGlob.parse_globs, hds, hpd] at h

theorem parseParts_error_shape :
    ∀ (filespec : String) (comps : List String) (prev : Bool) (e : String),
      PathGlob.parseParts filespec comps prev = .error e →
      ∃ pe, e = "Could not parse " ++ rustDebugStr filespec ++ " as a glob: " ++
        rustDebugPatternError pe := by
  intro filespec comps
  induction comps with
  | nil => intro prev e h; simp [PathGlob.parseParts] at h
  | cons c rest ih =>
    intro prev e h
    by_cases hdot : c = "."
    · exact ih _ _ (by simpa [PathGlob.parseParts, hdot] using h)
    · by_cases hsk : prev = true ∧ c = DOUBLE_STAR
      · exact ih _ _ (by simpa [PathGlob.parseParts, hdot, hsk] using h)
      · cases hpn : Pattern.new c with
        | error pe =>
          refine ⟨pe, ?_⟩
          simp [PathGlob.parseParts, hdot, hsk, hpn] at h
          exact h.symm
        | ok pat =>
          cases hrec : PathGlob.parseParts filespec rest (c = DOUBLE_STAR) with
          | error e2 =>
            have he : e2 = e := by
              simpa [PathGlob.parseParts, hdot, hsk, hpn, hrec, Except.map] using h
            exact he ▸ ih _ _ hrec
          | ok more => simp [PathGlob.parseParts, hdot, hsk, hpn, hrec, Except.map] at h

theorem pathComponents_error_shape (filespec e : String)
    (h : pathComponents filespec = .error e) :
    e = "Absolute paths not supported: " ++ rustDebugStr filespec := by
  unfold pathComponents at h
  split at h
  · exact (Except.error.injEq _ _ ▸ h).symm
  · simp at h

/--
C8 (amended): for every filespec of plain (printable-ASCII, quote- and
backslash-free) characters on which `PathGlob::parse` returns an error,
either the error message contains the offending input string itself (the
absolute-path error and the unparseable-glob error both embed its Debug
rendering), or the error is the root-escape error, which begins with
"Globs may not traverse outside the root: " and embeds only the Debug
rendering of the remaining parsed `Pattern` components — not, in general,
the original input string (see the counterexample at `"../a"`).
-/
theorem parse_error_names_input (canonical_dir : Dir) (symbolic_path : List String)
    (filespec e : String) (hplain : ∀ c ∈ filespec.data, plainChar c = true)
    (h : PathGlob.parse canonical_dir symbolic_path filespec = .error e) :
    strContains e filespec = true ∨ strStarts e rootEscapeHead = true := by
  unfold PathGlob.parse at h
  split at h
  next e1 hpc =>
    simp only [Except.error.injEq] at h
    subst h
    have h2 := pathComponents_error_shape filespec e1 hpc
    subst h2
    left
    exact strContains_rds_end _ _ hplain
  next comps hpc =>
    split at h
    next e2 hpp =>
      simp only [Except.error.injEq] at h
      subst h
      rcases parseParts_error_shape filespec comps false e2 hpp with ⟨pe, hpe⟩
      subst hpe
      left
      rw [String.append_assoc]
      exact strContains_rds _ _ _ hplain
    next parts hpp =>
      rcases parse_globs_error_shape parts canonical_dir symbolic_path e h with ⟨parts', hp⟩
      subst hp
      right
      exact strStarts_append _ _

theorem parse_error_names_input_witness :
    strContains "Absolute paths not supported: \"/abs\"" "/abs" = true ∨
      strStarts "Absolute paths not supported: \"/abs\"" rootEscapeHead = true :=
  parse_error_names_input ⟨[]⟩ [] "/abs" "Absolute paths not supported: \"/abs\""
    (by decide) (by rfl)

/--
C8 (counterexample): parsing the filespec `"../a"` from the root fails
with the root-escape error, and that error string does not contain the
offending input `"../a"` anywhere — it renders the remaining parsed
`Pattern` structs instead of the original string, refuting the claim that
every parse error contains the original input.
-/
theorem parse_root_escape_error_lacks_input :
    PathGlob.parse ⟨[]⟩ [] "../a" =
      .error (rootEscapeError
        [⟨"..", [.Char '.', .Char '.'], false⟩, ⟨"a", [.Char 'a'], false⟩]) ∧
    strContains
      (rootEscapeError
        [⟨"..", [.Char '.', .Char '.'], false⟩, ⟨"a", [.Char 'a'], false⟩])
      "../a" = false := by
  constructor
  · rfl
  · decide

/-! ## C9: shared-memory descriptor offsets are not validated -/

/--
C9: evaluation of `FileWithContents::from_shm_descriptor` at a descriptor
whose offsets lie beyond the shared-memory buffer: the explicit
`assert!(contents_end >= contents_start)` passes and control reaches the
unchecked slice `&bytes[start..end]`, which panics on the out-of-bounds
range — the descriptor is not rejected by any bounds validation before
the slice.
-/
theorem from_shm_descriptor_unchecked_oob :
    FileWithContents.from_shm_descriptor []
      ⟨some "a", some 0, some 1⟩ = .error .sliceOutOfBounds := by
  rfl

/-! ## Sorting helper lemmas -/

theorem charLtB_lt {a b : Char} : charLtB a b = true ↔ a.toNat < b.toNat := by
  simp [charLtB, Nat.blt_eq]

theorem charEq_of_toNat_eq {a b : Char} (h : a.toNat = b.toNat) : a = b :=
  Char.eq_of_val_eq (UInt32.ext h)

theorem strLtListB_eq_of_not :
    ∀ a b : List Char, strLtListB a b = false → strLtListB b a = false → a = b := by
  intro a
  induction a with
  | nil => intro b hab _; cases b with
    | nil => rfl
    | cons y ys => simp [strLtListB] at hab
  | cons x xs ih =>
    intro b hab hba
    cases b with
    | nil => simp [strLtListB] at hba
    | cons y ys =>
      simp only [strLtListB] at hab hba
      by_cases h1 : charLtB x y = true
      · simp [h1] at hab
      · by_cases h2 : charLtB y x = true
        · simp [h1, h2] at hba
        · have hxy : x = y := by
            apply charEq_of_toNat_eq
            have n1 := (not_congr charLtB_lt).mp h1
            have n2 := (not_congr charLtB_lt).mp h2
            omega
          subst hxy
          simp only [h1, if_neg, if_false, Bool.false_eq_true] at hab hba
          exact congrArg (x :: ·) (ih ys hab hba)

theorem strLtListB_trans :
    ∀ a b c : List Char, strLtListB a b = true → strLtListB b c = true →
      strLtListB a c = true := by
  intro a
  induction a with
  | nil =>
    intro b c hab hbc
    cases b with
    | nil => simp [strLtListB] at hab
    | cons y ys =>
      cases c with
      | nil => simp [strLtListB] at hbc
      | cons z zs => simp [strLtListB]
  | cons x xs ih =>
    intro b c hab hbc
    cases b with
    | nil => simp [strLtListB] at hab
    | cons y ys =>
      cases c with
      | nil => simp [strLtListB] at hbc
      | cons z zs =>
        simp only [strLtListB] at hab hbc ⊢
        by_cases h1 : charLtB x y = true
        · have hxy := charLtB_lt.mp h1
          by_cases h2 : charLtB y z = true
          · have hyz := charLtB_lt.mp h2
            have : charLtB x z = true := charLtB_lt.mpr (by omega)
            simp [this]
          · by_cases h3 : charLtB z y = true
            · simp [h2, h3] at hbc
            · have n2 := (not_congr charLtB_lt).mp h2
              have n3 := (not_congr charLtB_lt).mp h3
              have : charLtB x z = true := charLtB_lt.mpr (by omega)
              simp [this]
        · by_cases h4 : charLtB y x = true
          · simp [h1, h4] at hab
          · have n1 := (not_congr charLtB_lt).mp h1
            have n4 := (not_congr charLtB_lt).mp h4
            simp only [h1, h4, if_neg, if_false, Bool.false_eq_true] at hab
            by_cases h2 : charLtB y z = true
            · have hyz := charLtB_lt.mp h2
              have : charLtB x z = true := charLtB_lt.mpr (by omega)
              simp [this]
            · by_cases h3 : charLtB z y = true
              · simp [h2, h3] at hbc
              · have n2 := (not_congr charLtB_lt).mp h2
                have n3 := (not_congr charLtB_lt).mp h3
                simp only [h2, h3, if_neg, if_false, Bool.false_eq_true] at hbc
                have hxz : charLtB x z = false := by
                  rw [Bool.eq_false_iff]
                  intro hc; exact absurd (charLtB_lt.mp hc) (by omega)
                have hzx : charLtB z x = false := by
                  rw [Bool.eq_false_iff]
                  intro hc; exact absurd (charLtB_lt.mp hc) (by omega)
                simp [hxz, hzx, ih ys zs hab hbc]

theorem strLtB_eq_of_not (a b : String) (hab : strLtB a b = false)
    (hba : strLtB b a = false) : a = b :=
  String.ext (strLtListB_eq_of_not a.data b.data hab hba)

theorem pathLeB_total : ∀ a b : List String, pathLeB a b = true ∨ pathLeB b a = true := by
  intro a
  induction a with
  | nil => intro b; left; simp [pathLeB]
  | cons x xs ih =>
    intro b
    cases b with
    | nil => right; simp [pathLeB]
    | cons y ys =>
      by_cases h1 : strLtB x y = true
      · left; simp [pathLeB, h1]
      · by_cases h2 : strLtB y x = true
        · right; simp [pathLeB, h2]
        · have hxy : x = y :=
            strLtB_eq_of_not x y (Bool.not_eq_true _ ▸ h1) (Bool.not_eq_true _ ▸ h2)
          subst hxy
          rcases ih ys with h | h
          · left; simp [pathLeB, h1, h]
          · right; simp [pathLeB, h1, h]

theorem pathLeB_trans : ∀ a b c : List String,
    pathLeB a b = true → pathLeB b c = true → pathLeB a c = true := by
  intro a
  induction a with
  | nil => intro b c _ _; simp [pathLeB]
  | cons x xs ih =>
    intro b c hab hbc
    cases b with
    | nil => simp [pathLeB] at hab
    | cons y ys =>
      cases c with
      | nil => simp [pathLeB] at hbc
      | cons z zs =>
        simp only [pathLeB] at hab hbc ⊢
        by_cases h1 : strLtB x y = true
        · by_cases h2 : strLtB y z = true
          · have : strLtB x z = true := strLtListB_trans _ _ _ h1 h2
            simp [this]
          · by_cases h3 : strLtB z y = true
            · simp [h2, h3] at hbc
            · have hyz : y = z :=
                strLtB_eq_of_not y z (Bool.not_eq_true _ ▸ h2) (Bool.not_eq_true _ ▸ h3)
              subst hyz
              simp [h1]
        · by_cases h4 : strLtB y x = true
          · simp [h1, h4] at hab
          · have hxy : x = y :=
              strLtB_eq_of_not x y (Bool.not_eq_true _ ▸ h1) (Bool.not_eq_true _ ▸ h4)
            subst hxy
            simp only [h1, if_neg, if_false, Bool.false_eq_true] at hab
            by_cases h2 : strLtB x z = true
            · simp [h2]
            · by_cases h3 : strLtB z x = true
              · simp [h2, h3] at hbc
              · have hxz : x = z :=
                  strLtB_eq_of_not x z (Bool.not_eq_true _ ▸ h2) (Bool.not_eq_true _ ▸ h3)
                subst hxz
                simp only [h2, h3, if_neg, if_false, Bool.false_eq_true] at hbc ⊢
                exact ih ys zs hab hbc

instance : IsTotal Stat statLe := ⟨fun a b => pathLeB_total a.path b.path⟩

instance : IsTrans Stat statLe := ⟨fun a b c => pathLeB_trans a.path b.path c.path⟩

theorem sortStats_sorted (l : List Stat) : List.Pairwise statLe (sortStats l) :=
  List.sorted_insertionSort statLe l

theorem sortStats_mem {s : Stat} {l : List Stat} : s ∈ sortStats l ↔ s ∈ l :=
  (List.perm_insertionSort statLe l).mem_iff

theorem stat_internal_entry_inv (q : List String) (e : FsEntry) (root : OsPath)
    (s : Stat)
    (h : PosixFS.stat_internal ⟨false, q⟩ e.fileType root (.ok e.mode) = .ok s) :
    (e = .dir ∧ s = .Dir ⟨q⟩) ∨
    (∃ m, e = .file m ∧ s = .File ⟨q, m &&& 0o100 == 0o100⟩) ∨
    (∃ t, e = .link t ∧ s = .Link ⟨q⟩) := by
  cases hr : root.absolute with
  | false => simp [PosixFS.stat_internal, hr] at h
  | true =>
    cases e with
    | dir =>
      left
      simp [PosixFS.stat_internal, FsEntry.fileType, hr] at h
      exact ⟨rfl, h.symm⟩
    | file m =>
      right; left
      simp [PosixFS.stat_internal, FsEntry.fileType, FsEntry.mode, Except.map, hr] at h
      exact ⟨m, rfl, h.symm⟩
    | link t =>
      right; right
      simp [PosixFS.stat_internal, FsEntry.fileType, hr] at h
      exact ⟨t, rfl, h.symm⟩
    | other d =>
      simp [PosixFS.stat_internal, FsEntry.fileType, hr] at h

/-! ## C5: `scandir` is sorted and correctly tagged -/

/--
C5: when `PosixFS::scandir_sync` succeeds, its `Vec<Stat>` is sorted in
ascending path order, and every produced stat corresponds to an entry of
the directory's listing, tagged `Dir`, `File` or `Link` according to the
entry's filesystem type, with `File.is_executable` true exactly when the
owner-execute bit `0o100` of the entry's mode is set.
-/
theorem scandir_sync_sorted_and_tagged (fs : Fs) (root : OsPath) (dir : Dir)
    (stats : List Stat) (h : PosixFS.scandir_sync fs root dir = .ok stats) :
    List.Pairwise statLe stats ∧
    ∀ s ∈ stats, ∃ name e, (name, e) ∈ childrenOf fs dir.path ∧
      ((e = .dir ∧ s = .Dir ⟨dir.path ++ [name]⟩) ∨
       (∃ m, e = .file m ∧ s = .File ⟨dir.path ++ [name], m &&& 0o100 == 0o100⟩) ∨
       (∃ t, e = .link t ∧ s = .Link ⟨dir.path ++ [name]⟩)) := by
  unfold PosixFS.scandir_sync at h
  split at h
  · simp at h
  next listing hrd =>
    split at h
    · simp at h
    next stats0 hmap =>
      simp only [Except.ok.injEq] at h
      subst h
      refine ⟨sortStats_sorted stats0, ?_⟩
      intro s hs
      have hs0 : s ∈ stats0 := sortStats_mem.mp hs
      rcases mapExcept_ok_mem hmap s hs0 with ⟨⟨name, e⟩, hmem, hstat⟩
      have hlist : listing = childrenOf fs dir.path := by
        unfold readDirList at hrd
        split at hrd
        · simpa using hrd.symm
        · simp at hrd
      subst hlist
      exact ⟨name, e, hmem, stat_internal_entry_inv _ _ _ _ hstat⟩

theorem scandir_sync_sorted_and_tagged_witness :
    (List.Pairwise statLe
      [Stat.File ⟨["a"], false⟩, Stat.Dir ⟨["d"]⟩, Stat.File ⟨["f"], true⟩] ∧
    ∀ s ∈ [Stat.File ⟨["a"], false⟩, Stat.Dir ⟨["d"]⟩, Stat.File ⟨["f"], true⟩],
      ∃ name e,
        (name, e) ∈ childrenOf
          [(["f"], FsEntry.file 0o700), (["d"], FsEntry.dir), (["a"], FsEntry.file 0o600)]
          (Dir.path ⟨[]⟩) ∧
        ((e = .dir ∧ s = .Dir ⟨Dir.path ⟨[]⟩ ++ [name]⟩) ∨
         (∃ m, e = .file m ∧ s = .File ⟨Dir.path ⟨[]⟩ ++ [name], m &&& 0o100 == 0o100⟩) ∨
         (∃ t, e = .link t ∧ s = .Link ⟨Dir.path ⟨[]⟩ ++ [name]⟩))) :=
  scandir_sync_sorted_and_tagged
    [(["f"], FsEntry.file 0o700), (["d"], FsEntry.dir), (["a"], FsEntry.file 0o600)]
    ⟨true, ["r"]⟩ ⟨[]⟩
    [Stat.File ⟨["a"], false⟩, Stat.Dir ⟨["d"]⟩, Stat.File ⟨["f"], true⟩]
    (by rfl)

/-! ## C6: `read_link` target handling -/

/--
C6: when the raw readlink of a `Link` succeeds, `PosixFS::read_link`
fails with a data error on an absolute target, fails with a data error
when the link path has no parent, and otherwise returns the link's parent
directory joined with the relative target.
-/
theorem read_link_spec (fs : Fs) (root : OsPath) (link : Link) (target : OsPath)
    (h : readlinkRaw fs link.path = .ok target) :
    PosixFS.read_link fs root link =
      (if target.absolute then
        .error ⟨.InvalidData,
          "Absolute symlink: " ++ rustDebugOsPath ⟨root.absolute, root.segments ++ link.path⟩⟩
      else
        match parentSegs link.path with
        | some parent => .ok (parent ++ target.segments)
        | none =>
          .error ⟨.InvalidData,
            "Symlink without a parent?: " ++
              rustDebugOsPath ⟨root.absolute, root.segments ++ link.path⟩⟩) := by
  unfold PosixFS.read_link
  rw [h]

theorem read_link_spec_witness :
    (PosixFS.read_link [(["l"], FsEntry.link ⟨true, ["etc"]⟩)] ⟨true, ["r"]⟩ ⟨["l"]⟩ =
      (if (⟨true, ["etc"]⟩ : OsPath).absolute then
        .error ⟨.InvalidData,
          "Absolute symlink: " ++
            rustDebugOsPath ⟨(⟨true, ["r"]⟩ : OsPath).absolute,
              (⟨true, ["r"]⟩ : OsPath).segments ++ Link.path ⟨["l"]⟩⟩⟩
      else
        match parentSegs (Link.path ⟨["l"]⟩) with
        | some parent => .ok (parent ++ (⟨true, ["etc"]⟩ : OsPath).segments)
        | none =>
          .error ⟨.InvalidData,
            "Symlink without a parent?: " ++
              rustDebugOsPath ⟨(⟨true, ["r"]⟩ : OsPath).absolute,
                (⟨true, ["r"]⟩ : OsPath).segments ++ Link.path ⟨["l"]⟩⟩⟩)) :=
  read_link_spec [(["l"], FsEntry.link ⟨true, ["etc"]⟩)] ⟨true, ["r"]⟩ ⟨["l"]⟩
    ⟨true, ["etc"]⟩ (by rfl)

/-! ## C7: unexpected entry types are a data error -/

/--
C7: `PosixFS::stat_internal` on an entry whose file type is neither dir,
file nor symlink (e.g. a device node) fails with an `InvalidData` error
whose message names the path (it embeds the path's Debug rendering); it
never returns a `Stat` for such an entry.
-/
theorem stat_internal_other_type (p root : OsPath) (ft : FileType)
    (gm : Except IoError Nat) (hp : p.absolute = false) (hr : root.absolute = true)
    (hd : ft.is_dir = false) (hf : ft.is_file = false) (hs : ft.is_symlink = false) :
    PosixFS.stat_internal p ft root gm =
      .error ⟨.InvalidData,
        "Expected File, Dir or Link, but " ++ rustDebugOsPath p ++
          " (relative to " ++ rustDebugOsPath root ++ ") was a " ++ ft.debugRepr⟩ ∧
    strContains
      ("Expected File, Dir or Link, but " ++ rustDebugOsPath p ++
        " (relative to " ++ rustDebugOsPath root ++ ") was a " ++ ft.debugRepr)
      (rustDebugOsPath p) = true := by
  constructor
  · simp [PosixFS.stat_internal, hp, hr, hd, hf, hs]
  · apply strContains_congr _ "Expected File, Dir or Link, but " (rustDebugOsPath p)
      (" (relative to " ++ rustDebugOsPath root ++ ") was a " ++ ft.debugRepr)
    simp [String.append_assoc]

theorem stat_internal_other_type_witness :
    (PosixFS.stat_internal ⟨false, ["null"]⟩ ⟨false, false, false, "FileType(CharDevice)"⟩
        ⟨true, ["dev"]⟩ (.ok 0) =
      .error ⟨.InvalidData,
        "Expected File, Dir or Link, but " ++ rustDebugOsPath ⟨false, ["null"]⟩ ++
          " (relative to " ++ rustDebugOsPath ⟨true, ["dev"]⟩ ++ ") was a " ++
          FileType.debugRepr ⟨false, false, false, "FileType(CharDevice)"⟩⟩ ∧
    strContains
      ("Expected File, Dir or Link, but " ++ rustDebugOsPath ⟨false, ["null"]⟩ ++
        " (relative to " ++ rustDebugOsPath ⟨true, ["dev"]⟩ ++ ") was a " ++
        FileType.debugRepr ⟨false, false, false, "FileType(CharDevice)"⟩)
      (rustDebugOsPath ⟨false, ["null"]⟩) = true) :=
  stat_internal_other_type ⟨false, ["null"]⟩ ⟨true, ["dev"]⟩
    ⟨false, false, false, "FileType(CharDevice)"⟩ (.ok 0) rfl rfl rfl rfl rfl

/-! ## C10: the vcfs backend only emits non-executable file PathStats -/

/--
C10: every `PathStat` produced by the result construction of
`VcfsInstance::expand_globs` is a `PathStat::File` whose embedded `File`
stat has `is_executable = false` and whose stat path equals the symbolic
path — the backend never returns directories or separately canonicalized
paths.
-/
theorem expand_globs_results_only_files (bytes : List Nat)
    (fds : List FileWithContentsDescriptor) (res : List PathStat)
    (h : VcfsInstance.expand_globs_results bytes fds = .ok res) :
    ∀ ps ∈ res, ∃ segs, ps = .File segs ⟨segs, false⟩ := by
  intro ps hps
  rcases mapExcept_ok_mem h ps hps with ⟨fd, _, hfd⟩
  cases hsh : FileWithContents.from_shm_descriptor bytes fd with
  | error e => rw [hsh] at hfd; simp [Except.map] at hfd
  | ok fwc =>
    rw [hsh] at hfd
    simp [Except.map] at hfd
    exact ⟨pathSegsOfString fwc.path, hfd.symm⟩

theorem expand_globs_results_only_files_witness :
    VcfsInstance.expand_globs_results [9] [⟨some "a", some 0, some 1⟩] =
      .ok [PathStat.File ["a"] ⟨["a"], false⟩] ∧
    ∀ ps ∈ [PathStat.File ["a"] ⟨["a"], false⟩],
      ∃ segs, ps = PathStat.File segs ⟨segs, false⟩ :=
  ⟨by rfl,
   expand_globs_results_only_files [9] [⟨some "a", some 0, some 1⟩]
     [PathStat.File ["a"] ⟨["a"], false⟩] (by rfl)⟩

/-! ## C4: `path_stats` -/

theorem stat_path_inv {fs : Fs} {p : List String} {root : OsPath} {s : Stat}
    (h : PosixFS.stat_path fs p root = .ok s) :
    ∃ e, lookupFs fs p = some e ∧
      ((e = .dir ∧ s = .Dir ⟨p⟩) ∨
       (∃ m, e = .file m ∧ s = .File ⟨p, m &&& 0o100 == 0o100⟩) ∨
       (∃ t, e = .link t ∧ s = .Link ⟨p⟩)) := by
  unfold PosixFS.stat_path symlink_metadata at h
  cases hl : lookupFs fs p with
  | none => rw [hl] at h; simp at h
  | some e =>
    rw [hl] at h
    exact ⟨e, rfl, stat_internal_entry_inv p e root s h⟩

theorem canonicalize_ok_some (fs : Fs) (root : OsPath) :
    ∀ (fuel : Nat) (sym : List String) (l : Link) (ps : PathStat),
      canonicalize fs root sym l fuel = .ok (some ps) →
      ps.path = sym ∧ statRefersToRealEntry fs ps ∧
        ∀ p, PosixFS.stat_path fs p root = .ok (.Link l) → ResolvesTo fs root p ps.stat := by
  intro fuel
  induction fuel with
  | zero => intro sym l ps h; simp [canonicalize] at h
  | succ fuel ih =>
    intro sym l ps h
    unfold canonicalize at h
    cases hrl : PosixFS.read_link fs root l with
    | error e => simp only [hrl] at h; simp at h
    | ok dest =>
      simp only [hrl] at h
      cases hsp : PosixFS.stat_path fs (normalizeSegs dest) root with
      | error e =>
        simp only [hsp] at h
        by_cases hk : e.kind = .NotFound <;> simp [hk] at h
      | ok s =>
        simp only [hsp] at h
        cases s with
        | Link l2 =>
          rcases ih sym l2 ps h with ⟨hpath, hrefers, hres⟩
          refine ⟨hpath, hrefers, ?_⟩
          intro p hp
          exact ResolvesTo.link p l dest ps.stat hp hrl (hres _ hsp)
        | Dir d =>
          simp only [Except.ok.injEq, Option.some.injEq] at h
          subst h
          rcases stat_path_inv hsp with ⟨e, hl, hcase⟩
          rcases hcase with ⟨he, hsd⟩ | ⟨m, he, hsd⟩ | ⟨t, he, hsd⟩ <;>
            first
            | (injection hsd with hd; subst hd; subst he
               exact ⟨rfl, hl, fun p hp =>
                 ResolvesTo.link p l dest _ hp hrl (ResolvesTo.dir _ _ hsp)⟩)
            | (exact absurd hsd (by simp))
        | File f =>
          simp only [Except.ok.injEq, Option.some.injEq] at h
          subst h
          rcases stat_path_inv hsp with ⟨e, hl, hcase⟩
          rcases hcase with ⟨he, hsd⟩ | ⟨m, he, hsd⟩ | ⟨t, he, hsd⟩ <;>
            first
            | (injection hsd with hd; subst hd; subst he
               exact ⟨rfl, ⟨m, hl, rfl⟩, fun p hp =>
                 ResolvesTo.link p l dest _ hp hrl (ResolvesTo.file _ _ hsp)⟩)
            | (exact absurd hsd (by simp))

theorem canonicalize_dangling (fs : Fs) (root : OsPath) :
    ∀ (fuel : Nat) (sym : List String) (l : Link),
      linkChainDangles fs root l fuel = true →
      canonicalize fs root sym l fuel = .ok none := by
  intro fuel
  induction fuel with
  | zero => intro sym l h; simp [linkChainDangles] at h
  | succ fuel ih =>
    intro sym l h
    unfold linkChainDangles at h
    unfold canonicalize
    cases hrl : PosixFS.read_link fs root l with
    | error e => simp only [hrl] at h; simp at h
    | ok dest =>
      simp only [hrl] at h ⊢
      cases hsp : PosixFS.stat_path fs (normalizeSegs dest) root with
      | error e =>
        simp only [hsp] at h ⊢
        have hk : e.kind = .NotFound := by simpa using h
        simp [hk]
      | ok s =>
        simp only [hsp] at h ⊢
        cases s with
        | Link l2 => exact ih sym l2 h
        | Dir d => simp at h
        | File f => simp at h

theorem pathStatOne_none_of_notFound {fs : Fs} {root : OsPath} {p : List String}
    (h : lookupFs fs p = none) : pathStatOne fs root p = .ok none := by
  simp [pathStatOne, PosixFS.stat_path, symlink_metadata, h, notFoundError]

/--
C4: when `path_stats` succeeds it returns exactly one result per input
path in input order; an input whose stat is not-found yields an absent
result, an input resolving to a dangling symlink chain yields an absent
result, and every present result is a `PathStat` whose symbolic path is
the requested path and whose embedded stat is the canonical dir/file
reached by following the symlink chain (a real, link-free entry with the
correct executable bit).
-/
theorem path_stats_spec (fs : Fs) (root : OsPath) (paths : List (List String))
    (results : List (Option PathStat))
    (h : path_stats fs root paths = .ok results) :
    results.length = paths.length ∧
    ∀ (i : Nat) (p : List String), paths[i]? = some p →
      ∃ r, results[i]? = some r ∧
        pathStatOne fs root p = .ok r ∧
        (lookupFs fs p = none → r = none) ∧
        (∀ l, PosixFS.stat_path fs p root = .ok (.Link l) →
          linkChainDangles fs root l MAX_LINK_DEPTH = true → r = none) ∧
        (∀ ps, r = some ps → ps.path = p ∧ statRefersToRealEntry fs ps ∧
          ResolvesTo fs root p ps.stat) := by
  refine ⟨mapExcept_ok_length h, ?_⟩
  intro i p hp
  rcases mapExcept_ok_get h i p hp with ⟨r, hri, hone⟩
  refine ⟨r, hri, hone, ?_, ?_, ?_⟩
  · intro hnf
    exact Except.ok.inj (hone.symm.trans (pathStatOne_none_of_notFound hnf))
  · intro l hl hd
    have hnone : pathStatOne fs root p = .ok none := by
      unfold pathStatOne
      simp only [hl]
      exact canonicalize_dangling fs root MAX_LINK_DEPTH l.path l hd
    exact Except.ok.inj (hone.symm.trans hnone)
  · intro ps hr
    subst hr
    unfold pathStatOne at hone
    cases hsp : PosixFS.stat_path fs p root with
    | error err =>
      simp only [hsp] at hone
      by_cases hk : err.kind = .NotFound <;> simp [hk] at hone
    | ok s =>
      simp only [hsp] at hone
      cases s with
      | Link l =>
        rcases canonicalize_ok_some fs root MAX_LINK_DEPTH l.path l ps hone
          with ⟨hpath, hrefers, hres⟩
        rcases stat_path_inv hsp with ⟨e, hl, hcase⟩
        rcases hcase with ⟨_, hsd⟩ | ⟨m, _, hsd⟩ | ⟨t, _, hsd⟩ <;>
          first
          | (injection hsd with hd
             refine ⟨?_, hrefers, hres p hsp⟩
             rw [hpath, hd])
          | (exact absurd hsd (by simp))
      | Dir d =>
        simp only [Except.ok.injEq, Option.some.injEq] at hone
        subst hone
        rcases stat_path_inv hsp with ⟨e, hl, hcase⟩
        rcases hcase with ⟨he, hsd⟩ | ⟨m, he, hsd⟩ | ⟨t, he, hsd⟩ <;>
          first
          | (injection hsd with hd; subst hd; subst he
             exact ⟨rfl, hl, ResolvesTo.dir p _ hsp⟩)
          | (exact absurd hsd (by simp))
      | File f =>
        simp only [Except.ok.injEq, Option.some.injEq] at hone
        subst hone
        rcases stat_path_inv hsp with ⟨he, hl, hcase⟩
        rcases hcase with ⟨he, hsd⟩ | ⟨m, he, hsd⟩ | ⟨t, he, hsd⟩ <;>
          first
          | (injection hsd with hd; subst hd; subst he
             exact ⟨rfl, ⟨m, hl, rfl⟩, ResolvesTo.file p _ hsp⟩)
          | (exact absurd hsd (by simp))

theorem path_stats_spec_witness :
    ([some (PathStat.File ["f"] ⟨["f"], true⟩), some (PathStat.File ["l"] ⟨["f"], true⟩),
        none, none] : List (Option PathStat)).length =
      ([["f"], ["l"], ["dead"], ["missing"]] : List (List String)).length ∧
    ∀ (i : Nat) (p : List String),
      ([["f"], ["l"], ["dead"], ["missing"]] : List (List String))[i]? = some p →
      ∃ r,
        ([some (PathStat.File ["f"] ⟨["f"], true⟩), some (PathStat.File ["l"] ⟨["f"], true⟩),
            none, none] : List (Option PathStat))[i]? = some r ∧
        pathStatOne
          [(["f"], FsEntry.file 0o700), (["l"], FsEntry.link ⟨false, ["f"]⟩),
           (["dead"], FsEntry.link ⟨false, ["gone"]⟩)]
          ⟨true, ["r"]⟩ p = .ok r ∧
        (lookupFs
          [(["f"], FsEntry.file 0o700), (["l"], FsEntry.link ⟨false, ["f"]⟩),
           (["dead"], FsEntry.link ⟨false, ["gone"]⟩)] p = none → r = none) ∧
        (∀ l, PosixFS.stat_path
            [(["f"], FsEntry.file 0o700), (["l"], FsEntry.link ⟨false, ["f"]⟩),
             (["dead"], FsEntry.link ⟨false, ["gone"]⟩)] p ⟨true, ["r"]⟩ =
              .ok (.Link l) →
          linkChainDangles
            [(["f"], FsEntry.file 0o700), (["l"], FsEntry.link ⟨false, ["f"]⟩),
             (["dead"], FsEntry.link ⟨false, ["gone"]⟩)]
            ⟨true, ["r"]⟩ l MAX_LINK_DEPTH = true → r = none) ∧
        (∀ ps, r = some ps → ps.path = p ∧
          statRefersToRealEntry
            [(["f"], FsEntry.file 0o700), (["l"], FsEntry.link ⟨false, ["f"]⟩),
             (["dead"], FsEntry.link ⟨false, ["gone"]⟩)] ps ∧
          ResolvesTo
            [(["f"], FsEntry.file 0o700), (["l"], FsEntry.link ⟨false, ["f"]⟩),
             (["dead"], FsEntry.link ⟨false, ["gone"]⟩)]
            ⟨true, ["r"]⟩ p ps.stat) :=
  path_stats_spec
    [(["f"], FsEntry.file 0o700), (["l"], FsEntry.link ⟨false, ["f"]⟩),
     (["dead"], FsEntry.link ⟨false, ["gone"]⟩)]
    ⟨true, ["r"]⟩
    [["f"], ["l"], ["dead"], ["missing"]]
    [some (PathStat.File ["f"] ⟨["f"], true⟩), some (PathStat.File ["l"] ⟨["f"], true⟩),
      none, none]
    (by rfl)

end PantsFs
